import Mathlib

/-!
Verification of the core logic of `meshroom/ui/graph.py`: the `ChunksMonitor`
status-polling component and the `UIGraph` mutation/execution orchestrator.

The Python code is shallowly embedded: the filesystem seen by one poll tick is
a pure map from paths to file states, Qt signal emissions become explicit event
lists, the compute thread becomes a boolean liveness flag, and Python
exceptions (including `assert` failures) become `Except` values so that
exception propagation out of a loop is observable in the model.
-/

/-- Status values of a computation unit (`meshroom.core.node.Status`,
external collaborator; only the constructors the orchestrator inspects
matter here). -/
inductive Status where
  | NONE
  | SUBMITTED
  | RUNNING
  | ERROR
  | SUCCESS
  | STOPPED
  deriving DecidableEq, Repr

/-- A `NodeChunk` as seen by this module: an identity, the path of its status
file, and its in-memory status (read by the aggregation scan). -/
structure Chunk where
  id : Nat
  statusFile : Nat
  status : Status
  deriving DecidableEq, Repr

/-- State of one path in the filesystem at the moment a tick reads it:
the file may be absent, present with a modification time, or present but
unreadable (any `os.stat` failure: permissions, I/O error, ...). -/
inductive FileState where
  | absent
  | unreadable
  | present (mtime : Nat)
  deriving DecidableEq, Repr

/-- The filesystem as seen by one poll tick: a map from paths to states. -/
abbrev FS : Type := Nat → FileState

/-- `os.path.exists(f)`: returns `False` both when the path does not exist and
when `os.stat` raises (Python's `os.path.exists` swallows `OSError`). -/
def os_path_exists : FileState → Bool
  | .present _ => true
  | .absent => false
  | .unreadable => false

/-- `os.path.getmtime(f)`: returns the modification time, raising `OSError`
when the file is absent or unreadable. -/
def os_path_getmtime : FileState → Except String Int
  | .present t => .ok (t : Int)
  | .absent => .error "FileNotFoundError"
  | .unreadable => .error "OSError"

namespace ChunksMonitor

/-- `ChunksMonitor.getFileLastModTime`: mtime of the file if it exists,
`-1` otherwise. -/
def getFileLastModTime (fs : FS) (f : Nat) : Except String Int :=
  if os_path_exists (fs f) then os_path_getmtime (fs f) else .ok (-1)

/-- The change indicator a successful read yields for a file state:
`-1` for absent (and for unreadable, which `os.path.exists` reports as
absent), the modification time otherwise. -/
def fileIndicator : FileState → Int
  | .present t => (t : Int)
  | .absent => -1
  | .unreadable => -1

/-- `lastModificationRecords`: the monitor's map from watched chunk to last
observed change indicator.  Python dicts are insertion-ordered with unique
keys; we embed them as association lists. -/
abbrev Records : Type := List (Chunk × Int)

/-- Key membership in the record map (`chunk in self.lastModificationRecords`). -/
def containsChunk (c : Chunk) (rs : Records) : Bool :=
  rs.any (fun p => p.1 = c)

/-- Value lookup in the record map. -/
def lookupRecord (c : Chunk) (rs : Records) : Option Int :=
  (rs.find? (fun p => p.1 = c)).map Prod.snd

/-- Dict value assignment `d[c] = v`: updates the entry in place if the key is
present (keeping its position), appends it otherwise. -/
def dictSet (c : Chunk) (v : Int) (rs : Records) : Records :=
  if containsChunk c rs then
    rs.map (fun p => if p.1 = c then (c, v) else p)
  else
    rs ++ [(c, v)]

/-- The loop body of `ChunksMonitor.setChunks`: for each chunk in order,
store a record of its status file's last modification time. -/
def setChunksGo (fs : FS) (rs : Records) : List Chunk → Except String Records
  | [] => .ok rs
  | ch :: rest =>
    match getFileLastModTime fs ch.statusFile with
    | .error e => .error e
    | .ok t => setChunksGo fs (dictSet ch t rs) rest

/-- `ChunksMonitor.setChunks`: clears the previous records and snapshots each
new chunk's current change indicator (the per-chunk `statusChanged`
subscription is implicit in the model; the final `chunkStatusChanged.emit(None, -1)`
is reported by the caller's event list). -/
def setChunks (fs : FS) (chunks : List Chunk) : Except String Records :=
  setChunksGo fs [] chunks

/-- `ChunksMonitor.onChunkStatusChanged`: reaction to a chunk's self-reported
status change.  The `assert chunk in self.lastModificationRecords` is embedded
as an `Except.error`; on success the stored indicator is refreshed and the
pair `(chunk, chunk.status)` is emitted on `chunkStatusChanged`. -/
def onChunkStatusChanged (fs : FS) (chunk : Chunk) (rs : Records) :
    Except String (Records × (Chunk × Status)) :=
  if containsChunk chunk rs then
    match getFileLastModTime fs chunk.statusFile with
    | .error e => .error e
    | .ok t => .ok (dictSet chunk t rs, (chunk, chunk.status))
  else
    .error "AssertionError"

/-- `ChunksMonitor.checkFileTimes`: one poll tick.  Walks the records in
order; for each chunk whose freshly read indicator differs from the stored
one, stores the new indicator and calls `chunk.updateStatusFromCache()`.
The second component lists the chunks whose refresh was triggered, in tick
order.  Modelled from the spec: `updateStatusFromCache` (external collaborator,
`meshroom.core.node`) re-parses the status record into the chunk's in-memory
status and announces the change, so an entry in the fired list is both the
refresh-from-record and the per-unit change notification.  A read failure
aborts the remaining iterations, exactly as a raised exception would. -/
def checkFileTimes (fs : FS) : Records → Except String (Records × List Chunk)
  | [] => .ok ([], [])
  | (chunk, t) :: rest =>
    match getFileLastModTime fs chunk.statusFile with
    | .error e => .error e
    | .ok lastMod =>
      match checkFileTimes fs rest with
      | .error e => .error e
      | .ok (rest', fired) =>
        if lastMod ≠ t then
          .ok ((chunk, lastMod) :: rest', chunk :: fired)
        else
          .ok ((chunk, t) :: rest', fired)

/-- Total extraction of a tick's result (defaulting on the unreachable error
case): the updated records. -/
def tickRecords (fs : FS) (rs : Records) : Records :=
  ((checkFileTimes fs rs).toOption.getD (rs, [])).1

/-- Total extraction of a tick's result: the chunks whose refresh fired. -/
def tickFired (fs : FS) (rs : Records) : List Chunk :=
  ((checkFileTimes fs rs).toOption.getD (rs, [])).2

/-- Total extraction of `onChunkStatusChanged`'s updated records. -/
def selfReportRecords (fs : FS) (chunk : Chunk) (rs : Records) : Records :=
  ((onChunkStatusChanged fs chunk rs).toOption.getD (rs, (chunk, chunk.status))).1

/-- Total extraction of `setChunks`'s records. -/
def setChunksRecords (fs : FS) (chunks : List Chunk) : Records :=
  (setChunks fs chunks).toOption.getD []

end ChunksMonitor

/-- The external `core.Graph` collaborator, reduced to what `UIGraph` reads
from it: the chunk sequence that `graph.getChunks(graph.dfsOnFinish(None)[0])`
yields — the depth-first finish-ordered computation units. -/
structure GraphModel where
  chunks : List Chunk
  deriving DecidableEq, Repr

/-- Observable side effects of the orchestrator: Qt signal emissions, thread
lifecycle steps and the cancellation request sent to the execution routine. -/
inductive Event where
  | computeStatusChanged
  | threadStart
  | cancelRequested
  | threadJoined
  | graphChanged
  | chunkStatusChangedNull
  deriving DecidableEq, Repr

/-- An attribute as `addEdge`/`removeEdge` classify it: a scalar attribute or
a list-typed (`ListAttribute`) one, identified by number. -/
inductive Attr where
  | scalar (a : Nat)
  | listAttr (l : Nat)
  deriving DecidableEq, Repr

/-- `isinstance(x, ListAttribute)`. -/
def isListAttribute : Attr → Bool
  | .listAttr _ => true
  | .scalar _ => false

/-- An edge endpoint: a whole attribute, or the element of a list attribute at
a given index (`dst.at(-1)` resolves to the last index). -/
inductive AttrRef where
  | whole (a : Attr)
  | listElem (l : Nat) (idx : Nat)
  deriving DecidableEq, Repr

/-- The reversible graph edits `addEdge` issues (`commands.AddEdgeCommand`,
`commands.ListAttributeAppendCommand`). -/
inductive Cmd where
  | addEdgeCmd (src dst : AttrRef)
  | listAppendCmd (l : Nat)
  deriving DecidableEq, Repr

/-- One entry of the undo stack: a single command, or a labelled group of
commands pushed inside one `groupedGraphModification` context, undone and
redone as a single unit. -/
inductive StackEntry where
  | single (c : Cmd)
  | group (label : String) (cs : List Cmd)
  deriving DecidableEq, Repr

/-- The slice of graph topology the edge/list-attribute commands mutate:
the element count of every list attribute, and the edge list. -/
structure GraphTopo where
  listSizes : Nat → Nat
  edges : List (AttrRef × AttrRef)

/-- Element count of list attribute `l`. -/
def listSize (g : GraphTopo) (l : Nat) : Nat :=
  g.listSizes l

/-- Modelled from the spec: a `Command` is a reversible apply/undo pair.
`applyCmd` is the apply direction: `AddEdgeCommand` connects the edge,
`ListAttributeAppendCommand` appends one element to the list attribute. -/
def applyCmd (g : GraphTopo) : Cmd → GraphTopo
  | .addEdgeCmd src dst => { g with edges := g.edges ++ [(src, dst)] }
  | .listAppendCmd l =>
    { g with listSizes := fun k => if k = l then g.listSizes l + 1 else g.listSizes k }

/-- Modelled from the spec: the undo direction of a `Command` — removing the
added edge, or removing the appended element. -/
def undoCmd (g : GraphTopo) : Cmd → GraphTopo
  | .addEdgeCmd src dst => { g with edges := g.edges.erase (src, dst) }
  | .listAppendCmd l =>
    { g with listSizes := fun k => if k = l then g.listSizes l - 1 else g.listSizes k }

/-- Modelled from the spec: undoing one undo-stack entry; a group is undone
in exact reverse declaration order, as one unit. -/
def undoEntry (g : GraphTopo) : StackEntry → GraphTopo
  | .single c => undoCmd g c
  | .group _ cs => cs.reverse.foldl undoCmd g

/-- Modelled from the spec: redoing one undo-stack entry; a group is redone
in declaration order, as one unit. -/
def redoEntry (g : GraphTopo) : StackEntry → GraphTopo
  | .single c => applyCmd g c
  | .group _ cs => cs.foldl applyCmd g

namespace UIGraph

/-- The mutable state of a `UIGraph` instance: the wrapped graph (`None` only
transiently, inside `clear`), the undo stack, the macro nesting counter, the
monitor's records, the compute thread's liveness and the two aggregated
status flags, and the installed depth-first-ordered chunk list. -/
structure State where
  graph : Option GraphModel
  undoStack : List StackEntry
  modificationCount : Nat
  monitorRecords : ChunksMonitor.Records
  computeThreadAlive : Bool
  running : Bool
  submitted : Bool
  sortedDFSChunks : List Chunk
  deriving DecidableEq, Repr

/-- `UIGraph.isComputingLocally`: the owned compute thread is alive. -/
def isComputingLocally (st : State) : Bool :=
  st.computeThreadAlive

/-- `UIGraph.isComputingExternally`: some aggregated flag is set while no
local compute thread is alive. -/
def isComputingExternally (st : State) : Bool :=
  (st.running || st.submitted) && !(isComputingLocally st)

/-- `UIGraph.isComputing`: computed either locally or externally. -/
def isComputing (st : State) : Bool :=
  isComputingLocally st || isComputingExternally st

/-- `UIGraph.onChunkStatusChanged`: recompute the aggregated `running` and
`submitted` flags by scanning the installed chunk list, emitting
`computeStatusChanged` only on an actual transition. -/
def onChunkStatusChanged (st : State) : State × List Event :=
  let running := st.sortedDFSChunks.any (fun ch => ch.status = Status.RUNNING)
  let submitted := st.sortedDFSChunks.any (fun ch => ch.status = Status.SUBMITTED)
  if st.running != running || st.submitted != submitted then
    ({ st with running := running, submitted := submitted }, [Event.computeStatusChanged])
  else
    (st, [])

/-- `UIGraph.execute`: no-op when already computing; otherwise starts the
compute thread running `_execute`.  The trace covers the spawned thread up to
the initial `computeStatusChanged` that `_execute` emits on entry, before
`executeGraph` has completed. -/
def execute (st : State) : State × List Event :=
  if isComputing st then
    (st, [])
  else
    ({ st with computeThreadAlive := true }, [Event.threadStart, Event.computeStatusChanged])

/-- `UIGraph.stopExecution`: no-op when no local compute thread is alive;
otherwise `self._graph.stopExecution()` requests cooperative cancellation,
`self._computeThread.join()` blocks until the thread has terminated (so it is
no longer alive), and `computeStatusChanged` is emitted last. -/
def stopExecution (st : State) : State × List Event :=
  if !(isComputingLocally st) then
    (st, [])
  else
    ({ st with computeThreadAlive := false },
      [Event.cancelRequested, Event.threadJoined, Event.computeStatusChanged])

/-- `UIGraph.updateChunks`: recompute the depth-first-ordered chunk sequence
from the graph (`AttributeError` when the graph is `None`); if it equals the
installed one, return with no further work; otherwise install it and hand it
to the monitor via `setChunks` (whose final `emit(None, -1)` is the
`chunkStatusChangedNull` event). -/
def updateChunks (fs : FS) (st : State) : Except String (State × List Event) :=
  match st.graph with
  | none => .error "AttributeError"
  | some g =>
    let chunks := g.chunks
    if st.sortedDFSChunks = chunks then
      .ok (st, [])
    else
      match ChunksMonitor.setChunks fs chunks with
      | .error e => .error e
      | .ok rs =>
        .ok ({ st with sortedDFSChunks := chunks, monitorRecords := rs },
          [Event.chunkStatusChangedNull])

/-- `UIGraph.clear`: release the graph, empty the installed chunk list and
the undo stack. -/
def clear (st : State) : State :=
  { st with graph := none, sortedDFSChunks := [], undoStack := [] }

/-- `UIGraph.setGraph`: when a graph is installed, stop any local execution
and clear; install the new graph and subscribe to its `updated` notification;
`graph.update()` (modelled from the spec: the external collaborator fires
`updated`, which `onGraphUpdated` forwards to `updateChunks`) forces an
immediate topology recompute; finally emit `graphChanged`. -/
def setGraph (fs : FS) (st : State) (g : GraphModel) : Except String (State × List Event) :=
  let p :=
    if st.graph.isSome then
      let q := stopExecution st
      (clear q.1, q.2)
    else
      (st, [])
  let st1 := { p.1 with graph := some g }
  match updateChunks fs st1 with
  | .error e => .error e
  | .ok r => .ok (r.1, p.2 ++ r.2 ++ [Event.graphChanged])

/-- Total extraction of `setGraph`'s resulting state. -/
def setGraphState (fs : FS) (st : State) (g : GraphModel) : State :=
  ((setGraph fs st g).toOption.getD (st, [])).1

/-- Total extraction of `updateChunks`'s resulting state and events. -/
def updateChunksRun (fs : FS) (st : State) : State × List Event :=
  (updateChunks fs st).toOption.getD (st, [])

/-- `UIGraph.addEdge`: when the destination is a list attribute and the
source is not, open one grouped modification that appends a fresh element to
the destination (`appendAttribute`) and connects the source to the newly
inserted last element (`dst.at(-1)`); in every other case push a plain
`AddEdgeCommand` from source to destination.  The returned stack extends the
given one by exactly the pushed entry. -/
def addEdge (g : GraphTopo) (stack : List StackEntry) (src dst : Attr) :
    GraphTopo × List StackEntry :=
  match dst with
  | .listAttr l =>
    if isListAttribute src then
      (applyCmd g (.addEdgeCmd (.whole src) (.whole dst)),
        stack ++ [.single (.addEdgeCmd (.whole src) (.whole dst))])
    else
      let n := listSize g l
      let c1 : Cmd := .listAppendCmd l
      let c2 : Cmd := .addEdgeCmd (.whole src) (.listElem l n)
      (applyCmd (applyCmd g c1) c2,
        stack ++ [.group (s!"Insert and Add Edge on {l}") [c1, c2]])
  | .scalar _ =>
    (applyCmd g (.addEdgeCmd (.whole src) (.whole dst)),
      stack ++ [.single (.addEdgeCmd (.whole src) (.whole dst))])

end UIGraph

/-! Concrete fixtures used by the witness theorems. -/

/-- A filesystem where every path is unreadable. -/
def fsU : FS := fun _ => FileState.unreadable

/-- A filesystem where every path is absent. -/
def fsA : FS := fun _ => FileState.absent

/-- A filesystem where every path is present with modification time `t`. -/
def fsP (t : Nat) : FS := fun _ => FileState.present t

/-- A sample chunk. -/
def sampleChunk : Chunk := ⟨0, 0, Status.NONE⟩

/-- A second sample chunk, with a distinct status file. -/
def sampleChunk2 : Chunk := ⟨1, 1, Status.RUNNING⟩

/-- A `UIGraph` state with an installed empty graph and nothing running. -/
def idleState : UIGraph.State :=
  { graph := some ⟨[]⟩, undoStack := [], modificationCount := 0,
    monitorRecords := [], computeThreadAlive := false, running := false,
    submitted := false, sortedDFSChunks := [] }

/-- `idleState` with the compute thread alive. -/
def busyState : UIGraph.State :=
  { idleState with computeThreadAlive := true }

/-- `idleState` whose graph holds one chunk not yet installed in
`sortedDFSChunks`. -/
def staleState : UIGraph.State :=
  { idleState with graph := some ⟨[sampleChunk]⟩ }

/-- `idleState` with one undoable edit recorded and one chunk installed. -/
def editedState : UIGraph.State :=
  { idleState with
    undoStack := [StackEntry.single (Cmd.listAppendCmd 0)],
    sortedDFSChunks := [sampleChunk],
    graph := some ⟨[sampleChunk]⟩ }

/-- The scenario of the poll-detection claim: one watched chunk whose record
indicator moves absent → `t1` → `t1` → `t2` across successive ticks; states
which records each tick stores and which refreshes fire. -/
def pollSeqProp (c : Chunk) (t1 t2 : Nat) : Prop :=
  let fs0 : FS := fun _ => FileState.absent
  let fs1 : FS := fun _ => FileState.present t1
  let fs2 : FS := fun _ => FileState.present t2
  let r0 := ChunksMonitor.setChunksRecords fs0 [c]
  let r1 := ChunksMonitor.tickRecords fs1 r0
  let r2 := ChunksMonitor.tickRecords fs1 r1
  let r3 := ChunksMonitor.tickRecords fs2 r2
  r0 = [(c, -1)] ∧
  ChunksMonitor.tickFired fs1 r0 = [c] ∧ r1 = [(c, (t1 : Int))] ∧
  ChunksMonitor.tickFired fs1 r1 = [] ∧ r2 = [(c, (t1 : Int))] ∧
  ChunksMonitor.tickFired fs2 r2 = [c] ∧ r3 = [(c, (t2 : Int))]

/-- What `addEdge` does on a list-typed destination with a non-list source:
one element appended, the edge connected to the newly inserted last element,
one grouped stack entry pushed, and that entry undoes and redoes the pair as
one unit. -/
def addEdgeGroupProp (g : GraphTopo) (stack : List StackEntry) (src : Attr) (l : Nat) : Prop :=
  let n := listSize g l
  let c1 : Cmd := Cmd.listAppendCmd l
  let c2 : Cmd := Cmd.addEdgeCmd (AttrRef.whole src) (AttrRef.listElem l n)
  let e : StackEntry := StackEntry.group (s!"Insert and Add Edge on {l}") [c1, c2]
  let r := UIGraph.addEdge g stack src (Attr.listAttr l)
  listSize r.1 l = n + 1 ∧
  r.1.edges = g.edges ++ [(AttrRef.whole src, AttrRef.listElem l n)] ∧
  r.2 = stack ++ [e] ∧
  undoEntry r.1 e = g ∧
  redoEntry g e = r.1

/-! Pure characterisations of the monitor's loops, used to reason about the
`Except`-threaded definitions once their reads are known not to fail. -/

/-- What one tick does to a single record entry: store the fresh indicator if
it differs, keep the entry otherwise. -/
def tickEntry (fs : FS) (p : Chunk × Int) : Chunk × Int :=
  if ChunksMonitor.fileIndicator (fs p.1.statusFile) ≠ p.2 then
    (p.1, ChunksMonitor.fileIndicator (fs p.1.statusFile))
  else
    p

/-- Whether one tick fires a refresh for a record entry. -/
def firedPred (fs : FS) (p : Chunk × Int) : Bool :=
  ChunksMonitor.fileIndicator (fs p.1.statusFile) != p.2

/-- Pure form of `setChunks`: fold the dict assignments over the chunk list. -/
def setChunksPure (fs : FS) (chunks : List Chunk) : ChunksMonitor.Records :=
  chunks.foldl
    (fun rs ch => ChunksMonitor.dictSet ch (ChunksMonitor.fileIndicator (fs ch.statusFile)) rs)
    []

/-! Helper lemmas. -/

theorem getFileLastModTime_eq (fs : FS) (f : Nat) :
    ChunksMonitor.getFileLastModTime fs f =
      .ok (ChunksMonitor.fileIndicator (fs f)) := by
  unfold ChunksMonitor.getFileLastModTime ChunksMonitor.fileIndicator
  cases fs f <;> rfl

theorem checkFileTimes_eq_ok (fs : FS) (rs : ChunksMonitor.Records) :
    ChunksMonitor.checkFileTimes fs rs =
      .ok (rs.map (tickEntry fs), (rs.filter (firedPred fs)).map Prod.fst) := by
  induction rs with
  | nil => rfl
  | cons p rest ih =>
    obtain ⟨c, t⟩ := p
    rw [ChunksMonitor.checkFileTimes, getFileLastModTime_eq, ih]
    by_cases h : ChunksMonitor.fileIndicator (fs c.statusFile) = t
    · simp [h, tickEntry, firedPred]
    · simp [h, tickEntry, firedPred]

theorem tickRecords_eq (fs : FS) (rs : ChunksMonitor.Records) :
    ChunksMonitor.tickRecords fs rs = rs.map (tickEntry fs) := by
  rw [ChunksMonitor.tickRecords, checkFileTimes_eq_ok]
  rfl

theorem tickFired_eq (fs : FS) (rs : ChunksMonitor.Records) :
    ChunksMonitor.tickFired fs rs = (rs.filter (firedPred fs)).map Prod.fst := by
  rw [ChunksMonitor.tickFired, checkFileTimes_eq_ok]
  rfl

theorem setChunksGo_eq_ok (fs : FS) (chunks : List Chunk) :
    ∀ rs : ChunksMonitor.Records,
      ChunksMonitor.setChunksGo fs rs chunks =
        .ok (chunks.foldl
          (fun a ch =>
            ChunksMonitor.dictSet ch (ChunksMonitor.fileIndicator (fs ch.statusFile)) a)
          rs) := by
  induction chunks with
  | nil => intro rs; rfl
  | cons ch rest ih =>
    intro rs
    rw [ChunksMonitor.setChunksGo, getFileLastModTime_eq]
    exact ih (ChunksMonitor.dictSet ch (ChunksMonitor.fileIndicator (fs ch.statusFile)) rs)

theorem setChunks_eq_ok (fs : FS) (chunks : List Chunk) :
    ChunksMonitor.setChunks fs chunks = .ok (setChunksPure fs chunks) := by
  rw [ChunksMonitor.setChunks, setChunksGo_eq_ok]
  rfl

theorem setChunksRecords_eq (fs : FS) (chunks : List Chunk) :
    ChunksMonitor.setChunksRecords fs chunks = setChunksPure fs chunks := by
  rw [ChunksMonitor.setChunksRecords, setChunks_eq_ok]
  rfl

theorem onChunkStatusChanged_eq_ok (fs : FS) (chunk : Chunk) (rs : ChunksMonitor.Records)
    (h : ChunksMonitor.containsChunk chunk rs = true) :
    ChunksMonitor.onChunkStatusChanged fs chunk rs =
      .ok (ChunksMonitor.dictSet chunk (ChunksMonitor.fileIndicator (fs chunk.statusFile)) rs,
        (chunk, chunk.status)) := by
  rw [ChunksMonitor.onChunkStatusChanged]
  simp only [h, if_true, getFileLastModTime_eq]

theorem onChunkStatusChanged_eq_error (fs : FS) (chunk : Chunk) (rs : ChunksMonitor.Records)
    (h : ChunksMonitor.containsChunk chunk rs = false) :
    ChunksMonitor.onChunkStatusChanged fs chunk rs = .error "AssertionError" := by
  rw [ChunksMonitor.onChunkStatusChanged]
  simp [h]

theorem tickEntry_fst (fs : FS) (p : Chunk × Int) : (tickEntry fs p).1 = p.1 := by
  rw [tickEntry]
  split <;> rfl

theorem lookup_tick_unreadable (fs : FS) (c : Chunk) (h : fs c.statusFile = FileState.unreadable) :
    ∀ rs : ChunksMonitor.Records, ChunksMonitor.containsChunk c rs = true →
      ChunksMonitor.lookupRecord c (rs.map (tickEntry fs)) = some (-1) := by
  intro rs
  induction rs with
  | nil => intro hc; simp [ChunksMonitor.containsChunk] at hc
  | cons p rest ih =>
    intro hc
    by_cases hp : p.1 = c
    · have h1 : (tickEntry fs p).1 = c := by rw [tickEntry_fst]; exact hp
      have h2 : (tickEntry fs p).2 = -1 := by
        rw [tickEntry]
        have hind : ChunksMonitor.fileIndicator (fs p.1.statusFile) = -1 := by
          rw [hp, h]; rfl
        rw [hind]
        split
        · rfl
        · next hne => omega
      rw [ChunksMonitor.lookupRecord, List.map_cons, List.find?_cons_of_pos]
      · exact congrArg some h2
      · exact decide_eq_true h1
    · have hc' : ChunksMonitor.containsChunk c rest = true := by
        rw [ChunksMonitor.containsChunk] at hc ⊢
        simp only [List.any_cons, Bool.or_eq_true] at hc
        rcases hc with hc | hc
        · exact absurd (of_decide_eq_true hc) hp
        · exact hc
      rw [ChunksMonitor.lookupRecord, List.map_cons, List.find?_cons_of_neg]
      · exact ih hc'
      · intro hcontra
        exact hp (by rw [← tickEntry_fst fs p]; exact of_decide_eq_true hcontra)

/-- C1: during a poll tick, a status record that is unreadable is treated as
absent (indicator `-1`): the tick never raises, every watched record entry is
still checked (the record keys survive unchanged), and every chunk whose file
is unreadable ends the tick with stored indicator `-1`. -/
theorem tick_unreadable_treated_absent (fs : FS) (rs : ChunksMonitor.Records) :
    (ChunksMonitor.checkFileTimes fs rs).isOk = true ∧
    (ChunksMonitor.tickRecords fs rs).map Prod.fst = rs.map Prod.fst ∧
    (∀ c : Chunk, ChunksMonitor.containsChunk c rs = true →
      fs c.statusFile = FileState.unreadable →
      ChunksMonitor.lookupRecord c (ChunksMonitor.tickRecords fs rs) = some (-1)) := by
  refine ⟨?_, ?_, ?_⟩
  · rw [checkFileTimes_eq_ok]; rfl
  · rw [tickRecords_eq, List.map_map]
    have hcomp : Prod.fst ∘ tickEntry fs = (Prod.fst : Chunk × Int → Chunk) :=
      funext fun p => tickEntry_fst fs p
    rw [hcomp]
  · intro c hc hu
    rw [tickRecords_eq]
    exact lookup_tick_unreadable fs c hu rs hc

/-- C1 witness: with two watched chunks over a filesystem where every path is
unreadable, both end the tick recorded as absent. -/
theorem tick_unreadable_treated_absent_witness :
    ChunksMonitor.lookupRecord sampleChunk
      (ChunksMonitor.tickRecords fsU [(sampleChunk, 3), (sampleChunk2, 5)]) = some (-1) ∧
    ChunksMonitor.lookupRecord sampleChunk2
      (ChunksMonitor.tickRecords fsU [(sampleChunk, 3), (sampleChunk2, 5)]) = some (-1) :=
  ⟨(tick_unreadable_treated_absent fsU [(sampleChunk, 3), (sampleChunk2, 5)]).2.2
      sampleChunk (by decide) rfl,
   (tick_unreadable_treated_absent fsU [(sampleChunk, 3), (sampleChunk2, 5)]).2.2
      sampleChunk2 (by decide) rfl⟩

/-- C2: a poll tick registers a change exactly when the current indicator
differs from the stored one: over absent → t1 → t1 → t2, the first and third
ticks each fire the unit's refresh (and its change notification) and store
the new indicator, while the repeated-t1 tick fires nothing — elapsed time
alone never counts as a change. -/
theorem poll_fires_exactly_on_indicator_change (c : Chunk) (t1 t2 : Nat) (h : t1 ≠ t2) :
    pollSeqProp c t1 t2 := by
  have ht1 : ((t1 : Int)) ≠ -1 := by omega
  have h21 : ((t2 : Int)) ≠ (t1 : Int) := by omega
  have hr0 : ChunksMonitor.setChunksRecords (fun _ => FileState.absent) [c] = [(c, -1)] := by
    rw [setChunksRecords_eq]
    simp [setChunksPure, ChunksMonitor.dictSet, ChunksMonitor.containsChunk,
      ChunksMonitor.fileIndicator]
  have hr1 : ChunksMonitor.tickRecords (fun _ => FileState.present t1) [(c, -1)]
      = [(c, (t1 : Int))] := by
    rw [tickRecords_eq]
    simp [tickEntry, ChunksMonitor.fileIndicator, ht1]
  have hf1 : ChunksMonitor.tickFired (fun _ => FileState.present t1) [(c, -1)] = [c] := by
    rw [tickFired_eq]
    simp [firedPred, ChunksMonitor.fileIndicator, ht1]
  have hr2 : ChunksMonitor.tickRecords (fun _ => FileState.present t1) [(c, (t1 : Int))]
      = [(c, (t1 : Int))] := by
    rw [tickRecords_eq]
    simp [tickEntry, ChunksMonitor.fileIndicator]
  have hf2 : ChunksMonitor.tickFired (fun _ => FileState.present t1) [(c, (t1 : Int))] = [] := by
    rw [tickFired_eq]
    simp [firedPred, ChunksMonitor.fileIndicator]
  have hf3 : ChunksMonitor.tickFired (fun _ => FileState.present t2) [(c, (t1 : Int))] = [c] := by
    rw [tickFired_eq]
    simp [firedPred, ChunksMonitor.fileIndicator, h21]
  have hr3 : ChunksMonitor.tickRecords (fun _ => FileState.present t2) [(c, (t1 : Int))]
      = [(c, (t2 : Int))] := by
    rw [tickRecords_eq]
    simp [tickEntry, ChunksMonitor.fileIndicator, h21]
  simp only [pollSeqProp, hr0, hr1, hf1, hr2, hf2, hf3, hr3, and_self]

/-- C2 witness: the scenario at `t1 = 3`, `t2 = 7` on a sample chunk. -/
theorem poll_fires_exactly_on_indicator_change_witness : pollSeqProp sampleChunk 3 7 :=
  poll_fires_exactly_on_indicator_change sampleChunk 3 7 (by decide)

/-- C5: once a self-reported change has updated the stored indicator to the
record's current value, a poll tick over the same filesystem state fires no
refresh and no further notification for that chunk. -/
theorem self_report_suppresses_next_poll (fs : FS) (chunk : Chunk) (rs : ChunksMonitor.Records)
    (h : ChunksMonitor.containsChunk chunk rs = true) :
    (ChunksMonitor.onChunkStatusChanged fs chunk rs).isOk = true ∧
    chunk ∉ ChunksMonitor.tickFired fs (ChunksMonitor.selfReportRecords fs chunk rs) := by
  have hok := onChunkStatusChanged_eq_ok fs chunk rs h
  refine ⟨by rw [hok]; rfl, ?_⟩
  have hsr : ChunksMonitor.selfReportRecords fs chunk rs =
      ChunksMonitor.dictSet chunk (ChunksMonitor.fileIndicator (fs chunk.statusFile)) rs := by
    rw [ChunksMonitor.selfReportRecords, hok]
    rfl
  rw [hsr, tickFired_eq, ChunksMonitor.dictSet, if_pos h]
  intro hmem
  rw [List.mem_map] at hmem
  obtain ⟨p, hpfilter, hpfst⟩ := hmem
  rw [List.mem_filter] at hpfilter
  obtain ⟨hpmem, hpfired⟩ := hpfilter
  rw [List.mem_map] at hpmem
  obtain ⟨q, hqmem, hqp⟩ := hpmem
  by_cases hq : q.1 = chunk
  · rw [if_pos hq] at hqp
    rw [← hqp] at hpfired
    simp [firedPred] at hpfired
  · rw [if_neg hq] at hqp
    exact hq (by rw [hqp]; exact hpfst)

/-- C5 witness: after a self-report at modification time 4, the next tick over
the unchanged filesystem fires nothing for the chunk. -/
theorem self_report_suppresses_next_poll_witness :
    (ChunksMonitor.onChunkStatusChanged (fsP 4) sampleChunk [(sampleChunk, 0)]).isOk = true ∧
    sampleChunk ∉ ChunksMonitor.tickFired (fsP 4)
      (ChunksMonitor.selfReportRecords (fsP 4) sampleChunk [(sampleChunk, 0)]) :=
  self_report_suppresses_next_poll (fsP 4) sampleChunk [(sampleChunk, 0)] (by decide)

/-- C9: the self-report handler succeeds exactly when the reporting chunk is
in the watch set; for an unwatched chunk it fails fast with an assertion
error instead of being silently tolerated. -/
theorem self_report_assert_watched (fs : FS) (chunk : Chunk) (rs : ChunksMonitor.Records) :
    (ChunksMonitor.onChunkStatusChanged fs chunk rs).isOk
      = ChunksMonitor.containsChunk chunk rs ∧
    (ChunksMonitor.containsChunk chunk rs = false →
      ChunksMonitor.onChunkStatusChanged fs chunk rs = Except.error "AssertionError") := by
  cases hcc : ChunksMonitor.containsChunk chunk rs with
  | false =>
    rw [onChunkStatusChanged_eq_error fs chunk rs hcc]
    exact ⟨rfl, fun _ => rfl⟩
  | true =>
    rw [onChunkStatusChanged_eq_ok fs chunk rs hcc]
    exact ⟨rfl, fun hf => absurd hf (by decide)⟩

/-- C9 witness: an unwatched chunk trips the assertion; a watched one
completes. -/
theorem self_report_assert_watched_witness :
    ChunksMonitor.onChunkStatusChanged fsA sampleChunk [] = Except.error "AssertionError" ∧
    (ChunksMonitor.onChunkStatusChanged fsA sampleChunk [(sampleChunk, -1)]).isOk
      = ChunksMonitor.containsChunk sampleChunk [(sampleChunk, -1)] :=
  ⟨(self_report_assert_watched fsA sampleChunk []).2 rfl,
   (self_report_assert_watched fsA sampleChunk [(sampleChunk, -1)]).1⟩

/-- C4: `computingExternally` holds exactly when an aggregated flag (set by
the scan for a RUNNING or SUBMITTED chunk) is up while no local compute
thread is alive; it is never true together with `computingLocally`, so local
execution takes precedence in the reported state. -/
theorem computing_externally_exclusive (st : UIGraph.State) :
    UIGraph.isComputingExternally st
      = ((st.running || st.submitted) && !st.computeThreadAlive) ∧
    (UIGraph.isComputingLocally st && UIGraph.isComputingExternally st) = false ∧
    (UIGraph.onChunkStatusChanged st).1.running
      = st.sortedDFSChunks.any (fun ch => ch.status = Status.RUNNING) ∧
    (UIGraph.onChunkStatusChanged st).1.submitted
      = st.sortedDFSChunks.any (fun ch => ch.status = Status.SUBMITTED) := by
  refine ⟨rfl, ?_, ?_, ?_⟩
  · rw [UIGraph.isComputingExternally, UIGraph.isComputingLocally]
    cases st.computeThreadAlive <;> simp
  · rw [UIGraph.onChunkStatusChanged]
    split
    · rfl
    · next hcond =>
      simp only [Bool.or_eq_true, bne_iff_ne, ne_eq, not_or, not_not] at hcond
      exact hcond.1
  · rw [UIGraph.onChunkStatusChanged]
    split
    · rfl
    · next hcond =>
      simp only [Bool.or_eq_true, bne_iff_ne, ne_eq, not_or, not_not] at hcond
      exact hcond.2

/-- C6: `execute` is a no-op whenever computation is in progress (locally or
externally); from an idle state, two `execute` calls without completion in
between start exactly one thread and emit exactly one start notification, the
second call doing nothing. -/
theorem execute_noop_single_thread (st : UIGraph.State)
    (h : UIGraph.isComputing st = false) :
    UIGraph.execute ((UIGraph.execute st).1) = ((UIGraph.execute st).1, []) ∧
    ((UIGraph.execute st).2 ++ (UIGraph.execute (UIGraph.execute st).1).2).count
      Event.threadStart = 1 ∧
    ((UIGraph.execute st).2 ++ (UIGraph.execute (UIGraph.execute st).1).2).count
      Event.computeStatusChanged = 1 ∧
    (∀ s : UIGraph.State, UIGraph.isComputing s = true → UIGraph.execute s = (s, [])) := by
  have hstep : UIGraph.execute st =
      ({ st with computeThreadAlive := true },
        [Event.threadStart, Event.computeStatusChanged]) := by
    rw [UIGraph.execute, if_neg]
    rw [h]
    exact Bool.false_ne_true
  have hbusy : UIGraph.isComputing (UIGraph.execute st).1 = true := by
    rw [hstep]
    rw [UIGraph.isComputing, UIGraph.isComputingLocally]
    rfl
  have hnoop : ∀ s : UIGraph.State, UIGraph.isComputing s = true →
      UIGraph.execute s = (s, []) := by
    intro s hs
    rw [UIGraph.execute, if_pos hs]
  have hsecond : UIGraph.execute (UIGraph.execute st).1 = ((UIGraph.execute st).1, []) :=
    hnoop _ hbusy
  refine ⟨hsecond, ?_, ?_, hnoop⟩
  · rw [hsecond, hstep]
    rfl
  · rw [hsecond, hstep]
    rfl

/-- C6 witness: from the idle sample state, and the busy sample state as the
already-computing case. -/
theorem execute_noop_single_thread_witness :
    UIGraph.execute ((UIGraph.execute idleState).1) = ((UIGraph.execute idleState).1, []) ∧
    ((UIGraph.execute idleState).2 ++ (UIGraph.execute (UIGraph.execute idleState).1).2).count
      Event.threadStart = 1 ∧
    ((UIGraph.execute idleState).2 ++ (UIGraph.execute (UIGraph.execute idleState).1).2).count
      Event.computeStatusChanged = 1 ∧
    UIGraph.execute busyState = (busyState, []) :=
  ⟨(execute_noop_single_thread idleState (by decide)).1,
   (execute_noop_single_thread idleState (by decide)).2.1,
   (execute_noop_single_thread idleState (by decide)).2.2.1,
   (execute_noop_single_thread idleState (by decide)).2.2.2 busyState (by decide)⟩

/-- C7: with no live local thread `stopExecution` does nothing — no
cancellation request, no join, no notification; otherwise it requests
cancellation, joins the thread (leaving it dead), and only then emits the
state-changed notification. -/
theorem stopExecution_noop_or_join (st : UIGraph.State) :
    (UIGraph.isComputingLocally st = false → UIGraph.stopExecution st = (st, [])) ∧
    (UIGraph.isComputingLocally st = true →
      UIGraph.stopExecution st = ({ st with computeThreadAlive := false },
        [Event.cancelRequested, Event.threadJoined, Event.computeStatusChanged])) := by
  constructor
  · intro h
    rw [UIGraph.stopExecution, if_pos]
    rw [h]
    rfl
  · intro h
    rw [UIGraph.stopExecution, if_neg]
    rw [h]
    exact fun hcontra => Bool.false_ne_true (by exact hcontra.symm ▸ rfl)

/-- C7 witness: the idle state is untouched with no events; the busy state is
cancelled, joined and notified. -/
theorem stopExecution_noop_or_join_witness :
    UIGraph.stopExecution idleState = (idleState, []) ∧
    UIGraph.stopExecution busyState = ({ busyState with computeThreadAlive := false },
      [Event.cancelRequested, Event.threadJoined, Event.computeStatusChanged]) :=
  ⟨(stopExecution_noop_or_join idleState).1 rfl,
   (stopExecution_noop_or_join busyState).2 rfl⟩

theorem updateChunks_eq (fs : FS) (st : UIGraph.State) (g : GraphModel)
    (hg : st.graph = some g) :
    UIGraph.updateChunks fs st =
      if st.sortedDFSChunks = g.chunks then .ok (st, [])
      else .ok ({ st with
          sortedDFSChunks := g.chunks,
          monitorRecords := setChunksPure fs g.chunks }, [Event.chunkStatusChangedNull]) := by
  simp only [UIGraph.updateChunks, hg]
  by_cases hc : st.sortedDFSChunks = g.chunks
  · rw [if_pos hc, if_pos hc]
  · rw [if_neg hc, if_neg hc, setChunks_eq_ok]

/-- C8: when the freshly recomputed chunk sequence equals the installed one,
`updateChunks` does nothing at all — the state (including the monitor's
records) is untouched and no watch-list-replaced event fires; otherwise the
new sequence is installed and handed to the monitor via `setChunks`. -/
theorem updateChunks_idempotent (fs : FS) (st : UIGraph.State) (g : GraphModel)
    (hg : st.graph = some g) :
    (st.sortedDFSChunks = g.chunks → UIGraph.updateChunks fs st = .ok (st, [])) ∧
    (st.sortedDFSChunks ≠ g.chunks →
      UIGraph.updateChunks fs st =
        .ok ({ st with
            sortedDFSChunks := g.chunks,
            monitorRecords := ChunksMonitor.setChunksRecords fs g.chunks },
          [Event.chunkStatusChangedNull])) := by
  rw [updateChunks_eq fs st g hg]
  constructor
  · intro hc
    rw [if_pos hc]
  · intro hc
    rw [if_neg hc, setChunksRecords_eq]

/-- C8 witness: a state already holding its graph's (empty) chunk sequence is
left untouched; a stale state gets the new sequence installed and monitored. -/
theorem updateChunks_idempotent_witness :
    UIGraph.updateChunks fsA idleState = .ok (idleState, []) ∧
    UIGraph.updateChunks fsA staleState =
      .ok ({ staleState with
          sortedDFSChunks := [sampleChunk],
          monitorRecords := ChunksMonitor.setChunksRecords fsA [sampleChunk] },
        [Event.chunkStatusChangedNull]) :=
  ⟨(updateChunks_idempotent fsA idleState ⟨[]⟩ rfl).1 rfl,
   (updateChunks_idempotent fsA staleState ⟨[sampleChunk]⟩ rfl).2 (by decide)⟩

/-- C10: when a graph is installed, `setGraph` stops execution and clears the
undo stack and the previous sorted chunk list before installing the new
graph: afterwards the call has succeeded, the undo stack is empty (no edit on
the previous graph can be undone or redone), the new graph is installed and
its chunk sequence is the one in place. -/
theorem setGraph_clears_undo (fs : FS) (st : UIGraph.State) (g : GraphModel)
    (h : st.graph.isSome = true) :
    (UIGraph.setGraph fs st g).isOk = true ∧
    (UIGraph.setGraphState fs st g).undoStack = [] ∧
    (UIGraph.setGraphState fs st g).graph = some g ∧
    (UIGraph.setGraphState fs st g).sortedDFSChunks = g.chunks := by
  have hbranch : UIGraph.setGraph fs st g =
      match UIGraph.updateChunks fs
          { UIGraph.clear (UIGraph.stopExecution st).1 with graph := some g } with
      | .error e => .error e
      | .ok r => .ok (r.1, (UIGraph.stopExecution st).2 ++ r.2 ++ [Event.graphChanged]) := by
    simp only [UIGraph.setGraph, h, if_true]
  have hupd := updateChunks_eq fs
    { UIGraph.clear (UIGraph.stopExecution st).1 with graph := some g } g rfl
  have hsorted : ({ UIGraph.clear (UIGraph.stopExecution st).1 with graph := some g } :
      UIGraph.State).sortedDFSChunks = ([] : List Chunk) := rfl
  rw [hsorted] at hupd
  by_cases hc : ([] : List Chunk) = g.chunks
  · rw [if_pos hc] at hupd
    have hM : UIGraph.setGraph fs st g =
        .ok ({ UIGraph.clear (UIGraph.stopExecution st).1 with graph := some g },
          (UIGraph.stopExecution st).2 ++ [] ++ [Event.graphChanged]) := by
      rw [hbranch, hupd]
    refine ⟨by rw [hM]; rfl, ?_, ?_, ?_⟩
    · rw [UIGraph.setGraphState, hM]
      rfl
    · rw [UIGraph.setGraphState, hM]
      rfl
    · rw [UIGraph.setGraphState, hM]
      exact hc
  · rw [if_neg hc] at hupd
    have hM : UIGraph.setGraph fs st g =
        .ok ({ { UIGraph.clear (UIGraph.stopExecution st).1 with graph := some g } with
            sortedDFSChunks := g.chunks,
            monitorRecords := setChunksPure fs g.chunks },
          (UIGraph.stopExecution st).2 ++ [Event.chunkStatusChangedNull]
            ++ [Event.graphChanged]) := by
      rw [hbranch, hupd]
    refine ⟨by rw [hM]; rfl, ?_, ?_, ?_⟩
    · rw [UIGraph.setGraphState, hM]
      rfl
    · rw [UIGraph.setGraphState, hM]
      rfl
    · rw [UIGraph.setGraphState, hM]
      rfl

/-- C10 witness: replacing the graph of a state with one recorded edit leaves
an empty undo stack and installs the new graph's chunk sequence. -/
theorem setGraph_clears_undo_witness :
    (UIGraph.setGraph fsA editedState ⟨[sampleChunk2]⟩).isOk = true ∧
    (UIGraph.setGraphState fsA editedState ⟨[sampleChunk2]⟩).undoStack = [] ∧
    (UIGraph.setGraphState fsA editedState ⟨[sampleChunk2]⟩).graph
      = some (⟨[sampleChunk2]⟩ : GraphModel) ∧
    (UIGraph.setGraphState fsA editedState ⟨[sampleChunk2]⟩).sortedDFSChunks
      = (⟨[sampleChunk2]⟩ : GraphModel).chunks :=
  setGraph_clears_undo fsA editedState ⟨[sampleChunk2]⟩ rfl

/-- C3 counterexample: when the source is itself list-typed, `addEdge` into a
list-typed destination appends nothing (the destination keeps size 0) and
pushes a plain single edge command, not a grouped insert-and-connect entry —
refuting the claim for arbitrary list-typed destinations. -/
theorem addEdge_both_list_counterexample :
    isListAttribute (Attr.listAttr 1) = true ∧
    listSize (UIGraph.addEdge ⟨fun _ => 0, []⟩ [] (Attr.listAttr 0) (Attr.listAttr 1)).1 1 = 0 ∧
    (UIGraph.addEdge ⟨fun _ => 0, []⟩ [] (Attr.listAttr 0) (Attr.listAttr 1)).2 =
      [StackEntry.single (Cmd.addEdgeCmd (AttrRef.whole (Attr.listAttr 0))
        (AttrRef.whole (Attr.listAttr 1)))] :=
  ⟨rfl, rfl, rfl⟩

/-- C3 amended: for `addEdge(src, dst)` with `dst` list-typed and `src` not
list-typed, one new element is appended to `dst`, the edge is connected from
`src` to that newly inserted last element, and the pair is pushed as one
grouped entry that undoes and redoes as one unit. -/
theorem addEdge_insert_connect_grouped (g : GraphTopo) (stack : List StackEntry)
    (src : Attr) (l : Nat) (hsrc : isListAttribute src = false)
    (hfresh : (AttrRef.whole src, AttrRef.listElem l (listSize g l)) ∉ g.edges) :
    addEdgeGroupProp g stack src l := by
  have haddE : UIGraph.addEdge g stack src (Attr.listAttr l) =
      (applyCmd (applyCmd g (Cmd.listAppendCmd l))
        (Cmd.addEdgeCmd (AttrRef.whole src) (AttrRef.listElem l (listSize g l))),
       stack ++ [StackEntry.group (s!"Insert and Add Edge on {l}")
         [Cmd.listAppendCmd l,
          Cmd.addEdgeCmd (AttrRef.whole src) (AttrRef.listElem l (listSize g l))]]) := by
    simp only [UIGraph.addEdge, hsrc, Bool.false_eq_true, if_false]
  simp only [addEdgeGroupProp, haddE]
  refine ⟨?_, ?_, ?_, ?_, ?_⟩
  · simp [applyCmd, listSize]
  · simp [applyCmd]
  · trivial
  · obtain ⟨ls, es⟩ := g
    simp only [listSize] at hfresh
    simp only [undoEntry, List.reverse_cons, List.reverse_nil, List.nil_append,
      List.foldl_append, List.foldl_cons, List.foldl_nil, applyCmd, undoCmd, listSize]
    congr 1
    · funext k
      by_cases hk : k = l <;> simp [hk]
    · rw [List.erase_append_right _ hfresh]
      simp
  · trivial

/-- C3 amended witness: appending into list attribute 0 of an empty topology
from scalar source 0. -/
theorem addEdge_insert_connect_grouped_witness :
    addEdgeGroupProp ⟨fun _ => 0, []⟩ [] (Attr.scalar 0) 0 :=
  addEdge_insert_connect_grouped ⟨fun _ => 0, []⟩ [] (Attr.scalar 0) 0 rfl (by simp)
